import Mathlib

/-!
Shallow embedding of the anomaly-detection and incident-orchestration core of
the Drosera oracle-monitoring repository, together with proofs settling the
frozen claims C1..C10.

Embedded source files:
* `src/server/monitoring/DetectionEngine.ts` (bundled in `TwitterService.ts`):
  the `DetectionEngine` class — `analyzePrices`, `detectStaleOracle`,
  `detectFlashLoan`, `performStatisticalAnalysis`.
* `src/server/monitoring/MonitoringService.ts`: the confirmation gate
  `shouldCreateIncident` plus its 30-second `setTimeout` deletions.

Modelling conventions:
* JS numbers are embedded as `ℚ` (prices, thresholds) and `ℤ`/`ℕ`
  (millisecond timestamps).  Arithmetic on the concrete inputs appearing in
  the claims is exact in both IEEE doubles and `ℚ`.
* `Math.sqrt` is irrational, so the divergence check — the only place a
  square root occurs, in `stdDevBps = sqrt(variance)/mean*10⁴` compared
  against constant bounds — is embedded by the algebraically equivalent
  squared comparison (valid for `0 < mean`); the equivalence with the
  source's real-number formula is proved in `stdDevBps_exceeds_iff_sqrt`.
* JS `Map`s are embedded as association lists with `getEntry`/`setEntry`.
* The asynchronous `setTimeout` deletions of confirmation counters are
  embedded as a list of pending `(key, fireTime)` timers; a timer whose fire
  time has passed is processed (its key deleted) at the start of the next
  detection event, which is the first point at which its effect is
  observable.  `ConfirmState.born` is specification-only instrumentation
  recording when each live counter was created (count went 0 → 1); the
  source keeps no such field and none of the operational fields read it.
-/

namespace Drosera

/-- JS `Map.get`: first entry with the given key (mirrors insertion-order lookup). -/
def getEntry {α : Type} (k : String) : List (String × α) → Option α
  | [] => none
  | e :: rest => if e.1 = k then some e.2 else getEntry k rest

/-- JS `Map.set`: replace the binding of `k` by `v` (observationally, via
`getEntry`, identical to in-place update). -/
def setEntry {α : Type} (k : String) (v : α) (l : List (String × α)) : List (String × α) :=
  (k, v) :: l.filter (fun e => e.1 ≠ k)

/-- JS `Math.abs`. -/
def mabs (x : ℚ) : ℚ := if x < 0 then -x else x

/-- JS `Math.min(...arr)` over a non-empty array (`0` is never used: every
call site guards non-emptiness). -/
def listMin : List ℚ → ℚ
  | [] => 0
  | x :: xs => xs.foldl min x

/-- JS `Math.max(...arr)` over a non-empty array. -/
def listMax : List ℚ → ℚ
  | [] => 0
  | x :: xs => xs.foldl max x

/-! ## Data model (`shared/schema.ts`)

Only the fields read by the detection engine are embedded; `symbol`,
`source`, `blockNumber`, `confidence` and the per-incident delivery flags
are never consulted by the embedded functions. -/

/-- `OraclePrice` (schema.ts): one observation; `timestamp` in ms. -/
structure OraclePrice where
  chain : String
  price : ℚ
  timestamp : ℤ
deriving DecidableEq, Repr

/-- `AssetConfig.thresholds` (schema.ts), in percent. -/
structure Thresholds where
  warning : ℚ
  critical : ℚ
  emergency : ℚ
deriving DecidableEq, Repr

/-- `AssetConfig` (schema.ts): `expectedUpdateInterval` in seconds. -/
structure AssetConfig where
  expectedUpdateInterval : ℤ
  thresholds : Thresholds
deriving DecidableEq, Repr

/-- The four incident types of `IncidentType` (schema.ts). -/
inductive DetectionType
  | mispricing
  | stale_oracle
  | flash_loan
  | divergence
deriving DecidableEq, Repr

/-- The kind-specific `details` payload of a `DetectionResult` (an untyped
object in the source).  The divergence payload stores `(variance, mean)`
instead of the irrational `standardDeviationBps = sqrt(variance)/mean*10⁴`
which they determine. -/
inductive Details
  | empty
  | stale (staleDurationSeconds : ℚ) (lastUpdateTime : ℤ) (expectedUpdateInterval : ℤ)
  | flash (priceChangeBps : ℚ) (timeWindowSeconds : ℚ) (minPrice maxPrice : ℚ)
  | diverg (variance mean : ℚ) (sourceCount : ℕ) (rangeLow rangeHigh : ℚ)
  | misp (onchainPrice referencePrice deviationBps : ℚ) (chain : String) (zScore : ℚ)
deriving DecidableEq, Repr

/-- `DetectionResult` (DetectionEngine.ts lines 237-242); severity follows
`AlertSeverity`: 0 = Info, 1 = Warning, 2 = Critical, 3 = Emergency. -/
structure DetectionResult where
  detected : Bool
  type : Option DetectionType
  severity : ℕ
  details : Details
deriving DecidableEq, Repr

/-- The no-detection result `{detected: false, type: null, severity: 0, details: {}}`. -/
def noDetection : DetectionResult := ⟨false, none, 0, Details.empty⟩

/-- The engine's only mutable state: `priceHistory : Map<string, OraclePrice[]>`
keyed by `asset + "-" + chain` (DetectionEngine.ts line 245). -/
structure EngineState where
  priceHistory : List (String × List OraclePrice)
deriving DecidableEq, Repr

/-- The empty engine state (a fresh `DetectionEngine`). -/
def emptyEngine : EngineState := ⟨[]⟩

/-- `HISTORY_SIZE = 100` (DetectionEngine.ts line 246). -/
def HISTORY_SIZE : ℕ := 100

/-- `FLASH_LOAN_WINDOW_MS = 15000` (DetectionEngine.ts line 247). -/
def FLASH_LOAN_WINDOW_MS : ℤ := 15000

/-! ## Detection rules (DetectionEngine.ts) -/

/-- `detectStaleOracle` (lines 288-313): `Date.now()` is passed in as `now` (ms). -/
def detectStaleOracle (now : ℤ) (price : OraclePrice) (config : AssetConfig) : DetectionResult :=
  let timeSinceUpdate := now - price.timestamp
  let expectedInterval := config.expectedUpdateInterval * 1000
  let staleDuration := timeSinceUpdate - expectedInterval
  if staleDuration > expectedInterval * 2 then
    let severity : ℕ := if staleDuration > expectedInterval * 5 then 2 else 1
    { detected := true, type := some DetectionType.stale_oracle, severity := severity,
      details := Details.stale ((staleDuration : ℚ) / 1000) price.timestamp
        config.expectedUpdateInterval }
  else noDetection

/-- History update of `detectFlashLoan` (lines 325-330): push the current
price, `shift()` the oldest entry when the capacity is exceeded. -/
def pushCapped (history : List OraclePrice) (p : OraclePrice) : List OraclePrice :=
  let h := history ++ [p]
  if HISTORY_SIZE < h.length then h.tail else h

/-- The `recentPrices` filter of `detectFlashLoan` (lines 333-335): the
updated history restricted to observations strictly less than 15 s older
than the current observation. -/
def flashWindow (currentPrice : OraclePrice) (asset : String) (s : EngineState) :
    List OraclePrice :=
  let key := asset ++ "-" ++ currentPrice.chain
  let history := pushCapped ((getEntry key s.priceHistory).getD []) currentPrice
  history.filter (fun p => currentPrice.timestamp - p.timestamp < FLASH_LOAN_WINDOW_MS)

/-- `detectFlashLoan` (lines 318-363).  Unlike the other rules it also
writes the engine state: the updated history is stored back before the
window is examined. -/
def detectFlashLoan (currentPrice : OraclePrice) (asset : String) (s : EngineState) :
    DetectionResult × EngineState :=
  let key := asset ++ "-" ++ currentPrice.chain
  let history := pushCapped ((getEntry key s.priceHistory).getD []) currentPrice
  let s2 : EngineState := ⟨setEntry key history s.priceHistory⟩
  let recentPrices := history.filter
    (fun p => currentPrice.timestamp - p.timestamp < FLASH_LOAN_WINDOW_MS)
  if recentPrices.length < 2 then (noDetection, s2)
  else
    let prices := recentPrices.map (fun p => p.price)
    let minPrice := listMin prices
    let maxPrice := listMax prices
    let priceChangeBps := (maxPrice - minPrice) / minPrice * 10000
    if priceChangeBps > 2000 then
      ({ detected := true, type := some DetectionType.flash_loan, severity := 3,
         details := Details.flash priceChangeBps (FLASH_LOAN_WINDOW_MS / 1000 : ℚ)
           minPrice maxPrice }, s2)
    else (noDetection, s2)

/-- JS `array.sort((a, b) => a - b)`: ascending sort (line 376). -/
def sortAsc (values : List ℚ) : List ℚ := List.insertionSort (· ≤ ·) values

/-- The median of `performStatisticalAnalysis` (lines 376-377):
`sorted[Math.floor(sorted.length / 2)]`. -/
def medianOf (values : List ℚ) : ℚ :=
  let sorted := sortAsc values
  sorted.getD (sorted.length / 2) 0

/-- The MAD of `performStatisticalAnalysis` (lines 381-383): the same
`sorted[Math.floor(length / 2)]` index applied to the absolute deviations
from the median. -/
def madOf (values : List ℚ) : ℚ :=
  let deviationsFromMedian := values.map (fun v => mabs (v - medianOf values))
  let sortedDeviations := sortAsc deviationsFromMedian
  sortedDeviations.getD (sortedDeviations.length / 2) 0

/-- The mean (line 378): `values.reduce((a, b) => a + b, 0) / values.length`. -/
def meanOf (values : List ℚ) : ℚ := values.sum / (values.length : ℚ)

/-- The variance (line 386): `Σ (val - mean)² / values.length` — the
population variance, dividing by `n`. -/
def popVariance (values : List ℚ) : ℚ :=
  (values.map (fun v => (v - meanOf values) ^ 2)).sum / (values.length : ℚ)

/-- The comparison `stdDevBps > bound` of lines 391-392, where
`stdDevBps = sqrt(variance)/mean * 10⁴` (line 388).  Embedded by squaring:
for `0 < mean` and `0 ≤ bound` it holds iff `bound² mean² < 10⁸ variance`
(`stdDevBps_exceeds_iff_sqrt` proves the equivalence with the real-number
original). -/
def stdDevBpsExceeds (variance mean bound : ℚ) : Bool :=
  decide (0 < mean) && decide (bound ^ 2 * mean ^ 2 < 10 ^ 8 * variance)

/-- The per-price outlier check, the `prices.forEach` body of lines 409-439. -/
def mispricingCheck (median mad : ℚ) (config : AssetConfig) (price : OraclePrice) :
    Option DetectionResult :=
  let deviationFromMedian := mabs (price.price - median)
  let zScore := if 0 < mad then deviationFromMedian / mad else 0
  let deviationBps := (price.price - median) / median * 10000
  let absDeviationPercent := mabs deviationBps / 100
  if absDeviationPercent > config.thresholds.warning ∨ zScore > 5 / 2 then
    let severity : ℕ :=
      if absDeviationPercent > config.thresholds.emergency then 3
      else if absDeviationPercent > config.thresholds.critical then 2
      else 1
    some { detected := true, type := some DetectionType.mispricing, severity := severity,
           details := Details.misp price.price median (mabs deviationBps) price.chain zScore }
  else none

/-- `performStatisticalAnalysis` (lines 368-442): the divergence check
followed by the per-price mispricing checks, results in push order. -/
def performStatisticalAnalysis (prices : List OraclePrice) (config : AssetConfig) :
    List DetectionResult :=
  let values := prices.map (fun p => p.price)
  let median := medianOf values
  let mad := madOf values
  let mean := meanOf values
  let variance := popVariance values
  let divergenceResults : List DetectionResult :=
    if stdDevBpsExceeds variance mean 1000 then
      let severity : ℕ :=
        if stdDevBpsExceeds variance mean 2000 then 3
        else if stdDevBpsExceeds variance mean 1500 then 2
        else 1
      [{ detected := true, type := some DetectionType.divergence, severity := severity,
         details := Details.diverg variance mean prices.length (listMin values)
           (listMax values) }]
    else []
  divergenceResults ++ prices.filterMap (mispricingCheck median mad config)

/-- `analyzePrices` (lines 250-283): stale checks, then flash-loan checks
threading the engine state, then — only with at least 3 sources — the
statistical analysis. -/
def analyzePrices (now : ℤ) (asset : String) (prices : List OraclePrice)
    (config : AssetConfig) (s : EngineState) : List DetectionResult × EngineState :=
  let staleResults := prices.filterMap (fun p =>
    let r := detectStaleOracle now p config
    if r.detected then some r else none)
  let flashStep := prices.foldl (fun acc p =>
    let rs := detectFlashLoan p asset acc.2
    (if rs.1.detected then acc.1 ++ [rs.1] else acc.1, rs.2))
    (([] : List DetectionResult), s)
  let statResults :=
    if 3 ≤ prices.length then performStatisticalAnalysis prices config else []
  (staleResults ++ flashStep.1 ++ statResults, flashStep.2)

/-- The default ETH `AssetConfig` (storage.ts lines 71-79): update interval
60 s, thresholds warning 10 / critical 15 / emergency 25 percent. -/
def ethConfig : AssetConfig := ⟨60, ⟨10, 15, 25⟩⟩

/-! ## Spec-side definitions (for refinement comparisons only) -/

/-- Modelled from the spec: the lower-middle order statistic, "for even
counts take the lower-middle", i.e. the element at 0-based index
`n/2 − 1` of the ascending-sorted values. -/
def lowerMiddle (values : List ℚ) : ℚ :=
  (sortAsc values).getD (values.length / 2 - 1) 0

/-- Modelled from the spec (§9): the element at 0-based index `n/2` of the
ascending-sorted values — the upper-middle for even counts. -/
def upperMiddle (values : List ℚ) : ℚ :=
  (sortAsc values).getD (values.length / 2) 0

/-- Modelled from the spec: the sample variance `Σ (v − mean)² / (n − 1)`
underlying the "sample standard deviation" the spec prescribes. -/
def sampleVariance (values : List ℚ) : ℚ :=
  (values.map (fun v => (v - meanOf values) ^ 2)).sum / ((values.length : ℚ) - 1)

/-! ## Confirmation orchestrator (MonitoringService.ts lines 145-164) -/

/-- State of the confirmation gate: `counts` embeds the
`incidentConfirmations : Map<string, number>` (line 145); `timers` is the
multiset of pending `setTimeout` deletions `(key, fireTime)` (lines
159-161); `born` is specification-only instrumentation recording the
creation instant of each live counter. -/
structure ConfirmState where
  counts : List (String × ℕ)
  timers : List (String × ℕ)
  born : List (String × ℕ)
deriving DecidableEq, Repr

/-- The state of a freshly constructed `MonitoringService`. -/
def emptyConfirm : ConfirmState := ⟨[], [], []⟩

/-- Fire every pending `setTimeout` whose time has been reached: each
expired timer executes `incidentConfirmations.delete(key)` (line 160). -/
def expireTimers (t : ℕ) (s : ConfirmState) : ConfirmState :=
  let expiredKeys := (s.timers.filter (fun kt => kt.2 ≤ t)).map (fun kt => kt.1)
  { counts := s.counts.filter (fun kc => kc.1 ∉ expiredKeys)
    timers := s.timers.filter (fun kt => ¬ kt.2 ≤ t)
    born := s.born.filter (fun kb => kb.1 ∉ expiredKeys) }

/-- `shouldCreateIncident` (lines 147-164) as a step at time `t` (ms):
deletions whose timer has passed become visible, the counter for
`asset + "-" + type` is incremented (created at 1 if absent), a deletion is
scheduled 30 s from now, and the gate answers `newCount >= required`. -/
def shouldCreateIncident (asset dtype : String) (required : ℕ) (t : ℕ)
    (s : ConfirmState) : Bool × ConfirmState :=
  let s1 := expireTimers t s
  let key := asset ++ "-" ++ dtype
  let current := (getEntry key s1.counts).getD 0
  let newCount := current + 1
  (required ≤ newCount,
    { counts := setEntry key newCount s1.counts
      timers := s1.timers ++ [(key, t + 30000)]
      born := if current = 0 then setEntry key t s1.born else s1.born })

/-- Run a sequence of raw detections of one `(asset, type)` at the given
times; returns the gate's answer paired with the event time, in order,
plus the final state. -/
def runTrace (asset dtype : String) (required : ℕ) :
    List ℕ → ConfirmState → List (Bool × ℕ) × ConfirmState
  | [], s => ([], s)
  | t :: ts, s =>
    let step := shouldCreateIncident asset dtype required t s
    let rest := runTrace asset dtype required ts step.2
    ((step.1, t) :: rest.1, rest.2)

/-- The creation times of the incidents a trace emits (`storage.createIncident`
is called exactly when the gate answers `true`, MonitoringService.ts
lines 111-119 and 175). -/
def incidentTimes (outs : List (Bool × ℕ)) : List ℕ :=
  (outs.filter (fun o => o.1)).map (fun o => o.2)

/-- How many incidents are open at time `T`: created, never acknowledged
(nothing in the detection path acknowledges), and within the 30 s
cool-down. -/
def openAt (T : ℕ) (created : List ℕ) : ℕ :=
  (created.filter (fun c => c ≤ T ∧ T < c + 30000)).length

/-- Reference answer sheet for a burst with no intervening expiry: starting
from count `c`, the i-th detection answers `required ≤ c + i + 1`. -/
def expectedOutputs (c required : ℕ) : List ℕ → List (Bool × ℕ)
  | [] => []
  | t :: ts => (required ≤ c + 1, t) :: expectedOutputs (c + 1) required ts

/-- Ghost invariant: every live counter has a recorded creation instant and
a pending deletion scheduled exactly 30 s after that instant. -/
def CounterInv (s : ConfirmState) : Prop :=
  ∀ k c, getEntry k s.counts = some c →
    ∃ b, getEntry k s.born = some b ∧ (k, b + 30000) ∈ s.timers

/-- Ghost invariant: every recorded creation instant is at most `t`. -/
def BornBound (t : ℕ) (s : ConfirmState) : Prop :=
  ∀ k b, getEntry k s.born = some b → b ≤ t

/-- The five-source sample of the spec's testable property: cross-source
prices {100, 101, 99, 102, 150}. -/
def fiveSourceSample : List OraclePrice :=
  [⟨"ethereum", 100, 0⟩, ⟨"arbitrum", 101, 0⟩, ⟨"optimism", 99, 0⟩,
   ⟨"base", 102, 0⟩, ⟨"solana", 150, 0⟩]

/-! ## Association-list lemmas -/

theorem getEntry_filterKey {α : Type} (p : String → Bool) (k : String) (l : List (String × α)) :
    getEntry k (l.filter (fun e => p e.1)) = if p k = true then getEntry k l else none := by
  induction l with
  | nil => simp [getEntry]
  | cons e rest ih =>
    by_cases hp : p e.1 = true <;> by_cases he : e.1 = k
    · subst he
      simp [List.filter_cons, hp, getEntry]
    · simp [List.filter_cons, hp, getEntry, he, ih]
    · subst he
      simp [List.filter_cons, hp]
      rw [ih]
      simp [hp]
    · simp [List.filter_cons, hp]
      rw [ih]
      simp [getEntry, he]

theorem getEntry_setEntry {α : Type} (k k2 : String) (v : α) (l : List (String × α)) :
    getEntry k (setEntry k2 v l) = if k2 = k then some v else getEntry k l := by
  unfold setEntry
  by_cases h : k2 = k
  · subst h
    simp [getEntry]
  · have hfk := getEntry_filterKey (fun x => decide (x ≠ k2)) k l
    simp only [getEntry, h, if_false]
    rw [hfk]
    simp [Ne.symm h]

/-! ## Burst behaviour of the confirmation gate -/

theorem expireTimers_noop (t : ℕ) (s : ConfirmState) (h : ∀ kt ∈ s.timers, t < kt.2) :
    expireTimers t s = s := by
  have hte : s.timers.filter (fun kt => decide (kt.2 ≤ t)) = [] := by
    rw [List.filter_eq_nil_iff]
    intro kt hkt
    simpa using Nat.not_le.mpr (h kt hkt)
  unfold expireTimers
  rw [hte]
  cases s with
  | mk counts timers born =>
    simp only [ConfirmState.mk.injEq, List.map_nil]
    refine ⟨?_, ?_, ?_⟩
    · exact List.filter_eq_self.mpr (fun e _ => by simp)
    · exact List.filter_eq_self.mpr (fun kt hkt => by simpa using Nat.not_le.mpr (h kt hkt))
    · exact List.filter_eq_self.mpr (fun e _ => by simp)

theorem shouldCreateIncident_noexpire (asset dtype : String) (required t : ℕ)
    (s : ConfirmState) (h : ∀ kt ∈ s.timers, t < kt.2) :
    shouldCreateIncident asset dtype required t s =
      (decide (required ≤ (getEntry (asset ++ "-" ++ dtype) s.counts).getD 0 + 1),
       { counts := setEntry (asset ++ "-" ++ dtype)
           ((getEntry (asset ++ "-" ++ dtype) s.counts).getD 0 + 1) s.counts
         timers := s.timers ++ [(asset ++ "-" ++ dtype, t + 30000)]
         born := if (getEntry (asset ++ "-" ++ dtype) s.counts).getD 0 = 0 then
             setEntry (asset ++ "-" ++ dtype) t s.born
           else s.born }) := by
  unfold shouldCreateIncident
  rw [expireTimers_noop t s h]

theorem runTrace_burst (asset dtype : String) (required : ℕ) (ts : List ℕ) :
    ∀ (s : ConfirmState),
      (∀ u ∈ ts, u < 30000) →
      (∀ kt ∈ s.timers, ∀ u ∈ ts, u < kt.2) →
      (runTrace asset dtype required ts s).1 =
        expectedOutputs ((getEntry (asset ++ "-" ++ dtype) s.counts).getD 0) required ts ∧
      (ts ≠ [] →
        getEntry (asset ++ "-" ++ dtype) ((runTrace asset dtype required ts s).2).counts =
          some ((getEntry (asset ++ "-" ++ dtype) s.counts).getD 0 + ts.length)) := by
  induction ts with
  | nil =>
    intro s _ _
    exact ⟨rfl, fun h => absurd rfl h⟩
  | cons t ts ih =>
    intro s hts htimers
    have ht : ∀ kt ∈ s.timers, t < kt.2 := fun kt hkt =>
      htimers kt hkt t (List.mem_cons_self t ts)
    have hstep := shouldCreateIncident_noexpire asset dtype required t s ht
    set key := asset ++ "-" ++ dtype with hkey
    set c := (getEntry key s.counts).getD 0 with hc
    have hrun : runTrace asset dtype required (t :: ts) s =
        ((decide (required ≤ c + 1), t) :: (runTrace asset dtype required ts
            (shouldCreateIncident asset dtype required t s).2).1,
          (runTrace asset dtype required ts
            (shouldCreateIncident asset dtype required t s).2).2) := by
      rw [runTrace, hstep]
    have hcounts2 : getEntry key (shouldCreateIncident asset dtype required t s).2.counts =
        some (c + 1) := by
      rw [hstep]
      simp [getEntry_setEntry]
    have htimers2 : ∀ kt ∈ (shouldCreateIncident asset dtype required t s).2.timers,
        ∀ u ∈ ts, u < kt.2 := by
      rw [hstep]
      intro kt hkt u hu
      rcases List.mem_append.mp hkt with hold | hnew
      · exact htimers kt hold u (List.mem_cons_of_mem t hu)
      · have : kt = (key, t + 30000) := by simpa using hnew
        subst this
        have : u < 30000 := hts u (List.mem_cons_of_mem t hu)
        omega
    have hts2 : ∀ u ∈ ts, u < 30000 := fun u hu => hts u (List.mem_cons_of_mem t hu)
    obtain ⟨ih1, ih2⟩ := ih (shouldCreateIncident asset dtype required t s).2 hts2 htimers2
    constructor
    · rw [hrun]
      simp only [expectedOutputs]
      rw [ih1, hcounts2]
      rfl
    · intro _
      rw [hrun]
      simp only []
      cases ts with
      | nil =>
        simpa [runTrace, List.length_cons] using hcounts2
      | cons t2 ts2 =>
        have h2 := ih2 (by simp)
        rw [hcounts2] at h2
        simpa [List.length_cons, Nat.add_assoc, Nat.add_comm 1] using h2

theorem incidentTimes_expectedOutputs (required : ℕ) (ts : List ℕ) :
    ∀ c : ℕ, incidentTimes (expectedOutputs c required ts) = ts.drop (required - c - 1) := by
  induction ts with
  | nil => intro c; simp [expectedOutputs, incidentTimes]
  | cons t ts ih =>
    intro c
    have ih2 := ih (c + 1)
    simp only [expectedOutputs, incidentTimes, List.filter_cons] at ih2 ⊢
    by_cases h : required ≤ c + 1
    · have hd : required - c - 1 = 0 := by omega
      have hd2 : required - (c + 1) - 1 = 0 := by omega
      rw [hd2] at ih2
      simp [h, ih2, hd]
    · have hd : required - c - 1 = (required - (c + 1) - 1) + 1 := by omega
      rw [hd]
      simp [h, ih2, List.drop_succ_cons]

/-! ## Claims C1 and C2: the confirmation-and-deduplication gate -/

/-- C1, counterexample.  After the third raw detection of `(ETH, mispricing)`
(with `confirmationsRequired = 3`) the counter holds 3 — it is NOT deleted
on emitting the confirmation — and a fourth detection one millisecond later
answers `true` again from the resumed total 4, contradicting the claimed
fresh restart at count 1. -/
theorem c1_counterexample :
    getEntry "ETH-mispricing"
      ((runTrace "ETH" "mispricing" 3 [0, 1, 2] emptyConfirm).2).counts = some 3 ∧
    (runTrace "ETH" "mispricing" 3 [0, 1, 2, 3] emptyConfirm).1 =
      [(false, 0), (false, 1), (true, 2), (true, 3)] ∧
    getEntry "ETH-mispricing"
      ((runTrace "ETH" "mispricing" 3 [0, 1, 2, 3] emptyConfirm).2).counts = some 4 := by
  decide

/-- C1, amended.  `shouldCreateIncident` never deletes the counter on
reaching `confirmationsRequired`: within one cool-down window (all event
times below 30 s, so no scheduled deletion fires), a burst of raw
detections of one `(asset, type)` answers exactly per `expectedOutputs` —
the i-th detection passes the gate iff `required ≤ i + 1`, so the first
`required` detections yield exactly one confirmation, but every further
detection in the window also passes — and the counter afterwards holds the
full length of the burst.  Accumulation restarts at 1 only via the timeout:
in the concrete trace `[0, 1, 2, 40001]` the fourth detection (after the
30 s deletions fired) answers `false` and the counter is back at 1. -/
theorem c1_confirmation_sequence (asset dtype : String) (required : ℕ) (ts : List ℕ)
    (hts : ∀ u ∈ ts, u < 30000) (hne : ts ≠ []) :
    (runTrace asset dtype required ts emptyConfirm).1 = expectedOutputs 0 required ts ∧
    getEntry (asset ++ "-" ++ dtype)
      ((runTrace asset dtype required ts emptyConfirm).2).counts = some ts.length ∧
    (runTrace "ETH" "mispricing" 3 [0, 1, 2, 40001] emptyConfirm).1 =
      [(false, 0), (false, 1), (true, 2), (false, 40001)] ∧
    getEntry "ETH-mispricing"
      ((runTrace "ETH" "mispricing" 3 [0, 1, 2, 40001] emptyConfirm).2).counts = some 1 := by
  obtain ⟨h1, h2⟩ := runTrace_burst asset dtype required ts emptyConfirm hts
    (by simp [emptyConfirm])
  refine ⟨by simpa [emptyConfirm, getEntry] using h1, ?_, by decide, by decide⟩
  simpa [emptyConfirm, getEntry] using h2 hne

/-- C1, witness for the amended theorem at the burst `[0, 1, 2, 3]` with the
default `confirmationsRequired = 3`. -/
theorem c1_witness :
    (∀ u ∈ ([0, 1, 2, 3] : List ℕ), u < 30000) ∧
    (runTrace "ETH" "mispricing" 3 [0, 1, 2, 3] emptyConfirm).1 =
      expectedOutputs 0 3 [0, 1, 2, 3] :=
  ⟨by decide,
    (c1_confirmation_sequence "ETH" "mispricing" 3 [0, 1, 2, 3] (by decide) (by decide)).1⟩

/-- C2, counterexample.  Four raw detections of `(ETH, mispricing)` within
4 ms make the gate answer `true` twice (at the 3rd and 4th), creating two
incidents, both unacknowledged and both inside the 30 s cool-down at time
3 — two simultaneously open incidents for one `(asset, type)`. -/
theorem c2_counterexample :
    openAt 3 (incidentTimes ((runTrace "ETH" "mispricing" 3 [0, 1, 2, 3] emptyConfirm).1)) =
      2 := by
  decide

/-- C2, amended.  For a burst of `n` raw detections of one `(asset, type)`
inside a single 30 s window, the number of simultaneously open incidents
is `n - (required - 1)`: the at-most-one-open-incident invariant holds only
while at most `required` detections arrive within one window, and fails as
soon as `required + 1` arrive. -/
theorem c2_open_incidents (asset dtype : String) (required : ℕ) (ts : List ℕ) (T : ℕ)
    (hts : ∀ u ∈ ts, u ≤ T) (hT : T < 30000) :
    openAt T (incidentTimes ((runTrace asset dtype required ts emptyConfirm).1)) =
      ts.length - (required - 1) := by
  have hts30 : ∀ u ∈ ts, u < 30000 := fun u hu => lt_of_le_of_lt (hts u hu) hT
  obtain ⟨h1, _⟩ := runTrace_burst asset dtype required ts emptyConfirm hts30
    (by simp [emptyConfirm])
  rw [h1]
  have h0 : (getEntry (asset ++ "-" ++ dtype) emptyConfirm.counts).getD 0 = 0 := rfl
  rw [h0, incidentTimes_expectedOutputs]
  unfold openAt
  have hall : ∀ c ∈ ts.drop (required - 0 - 1), decide (c ≤ T ∧ T < c + 30000) = true := by
    intro c hc
    have hmem : c ∈ ts := List.mem_of_mem_drop hc
    have := hts c hmem
    simp only [decide_eq_true_eq]
    omega
  rw [List.filter_eq_self.mpr hall, List.length_drop]
  omega

/-- C2, witness for the amended theorem: the burst `[0, 1, 2, 3]` with
`required = 3` leaves `4 - 2 = 2` open incidents at time 3. -/
theorem c2_witness :
    openAt 3 (incidentTimes ((runTrace "ETH" "mispricing" 3 [0, 1, 2, 3] emptyConfirm).1)) =
      ([0, 1, 2, 3] : List ℕ).length - (3 - 1) :=
  c2_open_incidents "ETH" "mispricing" 3 [0, 1, 2, 3] 3 (by decide) (by decide)

/-! ## Claim C3: counter lifetime -/

theorem expireTimers_def (t : ℕ) (s : ConfirmState) :
    expireTimers t s =
      { counts := s.counts.filter
          (fun kc => kc.1 ∉ (s.timers.filter (fun kt => kt.2 ≤ t)).map (fun kt => kt.1))
        timers := s.timers.filter (fun kt => ¬ kt.2 ≤ t)
        born := s.born.filter
          (fun kb => kb.1 ∉ (s.timers.filter (fun kt => kt.2 ≤ t)).map (fun kt => kt.1)) } :=
  rfl

theorem expireTimers_born_sub (t : ℕ) (s : ConfirmState) (k : String) (b : ℕ)
    (h : getEntry k (expireTimers t s).born = some b) : getEntry k s.born = some b := by
  rw [expireTimers_def] at h
  have hfk := getEntry_filterKey
    (fun x => decide (x ∉ (s.timers.filter (fun kt => kt.2 ≤ t)).map (fun kt => kt.1)))
    k s.born
  rw [hfk] at h
  by_cases hk : k ∈ (s.timers.filter (fun kt => kt.2 ≤ t)).map (fun kt => kt.1)
  · simp [hk] at h
  · simpa [hk] using h

theorem expireTimers_counts_spec (t : ℕ) (s : ConfirmState) (k : String) (c : ℕ)
    (h : getEntry k (expireTimers t s).counts = some c) :
    getEntry k s.counts = some c ∧
    getEntry k (expireTimers t s).born = getEntry k s.born ∧
    (∀ ft, (k, ft) ∈ s.timers → t < ft ∧ (k, ft) ∈ (expireTimers t s).timers) := by
  rw [expireTimers_def] at h
  have hfk := getEntry_filterKey
    (fun x => decide (x ∉ (s.timers.filter (fun kt => kt.2 ≤ t)).map (fun kt => kt.1)))
    k s.counts
  rw [hfk] at h
  by_cases hk : k ∈ (s.timers.filter (fun kt => kt.2 ≤ t)).map (fun kt => kt.1)
  · simp [hk] at h
  · refine ⟨by simpa [hk] using h, ?_, ?_⟩
    · rw [expireTimers_def]
      have hfb := getEntry_filterKey
        (fun x => decide (x ∉ (s.timers.filter (fun kt => kt.2 ≤ t)).map (fun kt => kt.1)))
        k s.born
      rw [hfb]
      simp [hk]
    · intro ft hft
      have htlt : t < ft := by
        by_contra hle
        exact hk (List.mem_map.mpr ⟨(k, ft),
          List.mem_filter.mpr ⟨hft, by simpa using Nat.le_of_not_lt hle⟩, rfl⟩)
      refine ⟨htlt, ?_⟩
      rw [expireTimers_def]
      exact List.mem_filter.mpr ⟨hft, by simpa using Nat.not_le.mpr htlt⟩

theorem shouldCreateIncident_snd (asset dtype : String) (required t : ℕ) (s : ConfirmState) :
    (shouldCreateIncident asset dtype required t s).2 =
      { counts := setEntry (asset ++ "-" ++ dtype)
          ((getEntry (asset ++ "-" ++ dtype) (expireTimers t s).counts).getD 0 + 1)
          (expireTimers t s).counts
        timers := (expireTimers t s).timers ++ [(asset ++ "-" ++ dtype, t + 30000)]
        born := if (getEntry (asset ++ "-" ++ dtype) (expireTimers t s).counts).getD 0 = 0 then
            setEntry (asset ++ "-" ++ dtype) t (expireTimers t s).born
          else (expireTimers t s).born } :=
  rfl

theorem step_fresh (asset dtype : String) (required t0 t : ℕ) (s : ConfirmState)
    (hinv : CounterInv s) (hb : BornBound t0 s) (ht : t0 ≤ t) :
    CounterInv (shouldCreateIncident asset dtype required t s).2 ∧
    BornBound t (shouldCreateIncident asset dtype required t s).2 ∧
    (∀ k c, getEntry k (shouldCreateIncident asset dtype required t s).2.counts = some c →
      ∃ b, getEntry k (shouldCreateIncident asset dtype required t s).2.born = some b ∧
        t < b + 30000) := by
  rw [shouldCreateIncident_snd]
  set key := asset ++ "-" ++ dtype with hkey
  set s1 := expireTimers t s with hs1
  -- survivors of the expiry step carry their invariant, with unexpired timers
  have hsurv : ∀ k c, getEntry k s1.counts = some c →
      ∃ b, getEntry k s1.born = some b ∧ (k, b + 30000) ∈ s1.timers ∧ t < b + 30000 := by
    intro k c hkc
    obtain ⟨hins, hbeq, htim⟩ := expireTimers_counts_spec t s k c hkc
    obtain ⟨b, hb1, hb2⟩ := hinv k c hins
    obtain ⟨hlt, hmem⟩ := htim (b + 30000) hb2
    exact ⟨b, by rw [hbeq]; exact hb1, hmem, by omega⟩
  have hb1 : BornBound t0 s1 := fun k b h => hb k b (expireTimers_born_sub t s k b h)
  by_cases hcur : (getEntry key s1.counts).getD 0 = 0
  · -- the event key is created afresh at time t
    simp only [hcur, if_pos rfl, if_true]
    refine ⟨?_, ?_, ?_⟩
    · intro k c hkc
      rw [getEntry_setEntry] at hkc
      by_cases hkk : key = k
      · subst hkk
        refine ⟨t, ?_, ?_⟩
        · rw [getEntry_setEntry]
          simp
        · simp
      · rw [if_neg hkk] at hkc
        obtain ⟨b, hbb, hmem, hlt⟩ := hsurv k c hkc
        refine ⟨b, ?_, List.mem_append_left _ hmem⟩
        rw [getEntry_setEntry, if_neg hkk]
        exact hbb
    · intro k b hkb
      rw [getEntry_setEntry] at hkb
      by_cases hkk : key = k
      · rw [if_pos hkk] at hkb
        have hteq : t = b := by simpa using hkb
        omega
      · rw [if_neg hkk] at hkb
        exact le_trans (hb1 k b hkb) ht
    · intro k c hkc
      rw [getEntry_setEntry] at hkc
      by_cases hkk : key = k
      · subst hkk
        refine ⟨t, ?_, by omega⟩
        rw [getEntry_setEntry]
        simp
      · rw [if_neg hkk] at hkc
        obtain ⟨b, hbb, _, hlt⟩ := hsurv k c hkc
        refine ⟨b, ?_, hlt⟩
        rw [getEntry_setEntry, if_neg hkk]
        exact hbb
  · -- the event key was already live: its counter and birth instant persist
    simp only [hcur, if_neg hcur]
    have hlive : getEntry key s1.counts = some ((getEntry key s1.counts).getD 0) := by
      cases hg : getEntry key s1.counts with
      | none => simp [hg] at hcur
      | some v => simp [hg]
    refine ⟨?_, ?_, ?_⟩
    · intro k c hkc
      rw [getEntry_setEntry] at hkc
      by_cases hkk : key = k
      · subst hkk
        obtain ⟨b, hbb, hmem, _⟩ := hsurv key _ hlive
        exact ⟨b, hbb, List.mem_append_left _ hmem⟩
      · rw [if_neg hkk] at hkc
        obtain ⟨b, hbb, hmem, _⟩ := hsurv k c hkc
        exact ⟨b, hbb, List.mem_append_left _ hmem⟩
    · intro k b hkb
      exact le_trans (hb1 k b hkb) ht
    · intro k c hkc
      rw [getEntry_setEntry] at hkc
      by_cases hkk : key = k
      · subst hkk
        obtain ⟨b, hbb, _, hlt⟩ := hsurv key _ hlive
        exact ⟨b, hbb, hlt⟩
      · rw [if_neg hkk] at hkc
        obtain ⟨b, hbb, _, hlt⟩ := hsurv k c hkc
        exact ⟨b, hbb, hlt⟩

theorem runTrace_fresh (asset dtype : String) (required : ℕ) (ts : List ℕ) :
    ∀ (t0 : ℕ) (s : ConfirmState), CounterInv s → BornBound t0 s →
      List.Chain (fun a b => a ≤ b) t0 ts →
      CounterInv (runTrace asset dtype required ts s).2 ∧
      BornBound (ts.getLastD t0) (runTrace asset dtype required ts s).2 ∧
      (ts ≠ [] → ∀ k c,
        getEntry k (runTrace asset dtype required ts s).2.counts = some c →
        ∃ b, getEntry k (runTrace asset dtype required ts s).2.born = some b ∧
          ts.getLastD t0 < b + 30000) := by
  induction ts with
  | nil =>
    intro t0 s hinv hb _
    exact ⟨hinv, hb, fun h => absurd rfl h⟩
  | cons t ts ih =>
    intro t0 s hinv hb hchain
    cases hchain with
    | cons ht0 hchain2 =>
      obtain ⟨hinv2, hb2, hfresh2⟩ := step_fresh asset dtype required t0 t s hinv hb ht0
      have hrun2 : (runTrace asset dtype required (t :: ts) s).2 =
          (runTrace asset dtype required ts (shouldCreateIncident asset dtype required t s).2).2 :=
        rfl
      have hlast : (t :: ts).getLastD t0 = ts.getLastD t := List.getLastD_cons t0 t ts
      obtain ⟨hinvR, hbR, hfreshR⟩ :=
        ih t (shouldCreateIncident asset dtype required t s).2 hinv2 hb2 hchain2
      cases ts with
      | nil =>
        refine ⟨by rw [hrun2]; exact hinvR, ?_, ?_⟩
        · rw [hrun2, hlast]
          exact hbR
        · intro _ k c hkc
          rw [hrun2] at hkc ⊢
          rw [hlast]
          exact hfresh2 k c hkc
      | cons t2 ts2 =>
        refine ⟨by rw [hrun2]; exact hinvR, ?_, ?_⟩
        · rw [hrun2, hlast]
          exact hbR
        · intro _ k c hkc
          rw [hrun2] at hkc ⊢
          rw [hlast]
          exact hfreshR (by simp) k c hkc

/-- C3, counterexample.  Trace `[0, 10000, 35000, 41000]` for
`(ETH, mispricing)`: the counter created at 35000 (after the timer from
time 0 fired at 30000) is destroyed by the stale timer scheduled by the
increment at 10000, which fires at 40000 — only 5 s after the counter's
creation, although 41000 < 35000 + 30000.  The detection at 41000 therefore
finds no counter and creates a fresh one (count 1, birth 41000) instead of
incrementing to 2. -/
theorem c3_counterexample :
    getEntry "ETH-mispricing"
      ((runTrace "ETH" "mispricing" 3 [0, 10000, 35000] emptyConfirm).2).born = some 35000 ∧
    getEntry "ETH-mispricing"
      ((runTrace "ETH" "mispricing" 3 [0, 10000, 35000, 41000] emptyConfirm).2).born =
        some 41000 ∧
    getEntry "ETH-mispricing"
      ((runTrace "ETH" "mispricing" 3 [0, 10000, 35000, 41000] emptyConfirm).2).counts =
        some 1 ∧
    (41000 : ℕ) < 35000 + 30000 := by
  decide

/-- C3, amended.  A counter never outlives its window: after any
time-ordered trace of detections ending at time `t`, every live counter was
created at some `b ≤ t` with `t < b + 30000` — the deletion scheduled at
its creation guarantees removal within 30 s.  (Removal strictly earlier is
possible, through a deletion scheduled by an increment of a previous
counter incarnation for the same key: see the counterexample.) -/
theorem c3_counter_lifetime (asset dtype : String) (required : ℕ) (ts : List ℕ) (t : ℕ)
    (hchain : List.Chain (fun a b => a ≤ b) 0 (ts ++ [t])) (k : String) (c : ℕ)
    (hlive : getEntry k
      ((runTrace asset dtype required (ts ++ [t]) emptyConfirm).2).counts = some c) :
    ∃ b, getEntry k
        ((runTrace asset dtype required (ts ++ [t]) emptyConfirm).2).born = some b ∧
      b ≤ t ∧ t < b + 30000 := by
  obtain ⟨_, hbR, hfreshR⟩ := runTrace_fresh asset dtype required (ts ++ [t]) 0 emptyConfirm
    (fun k c h => by simp [emptyConfirm, getEntry] at h)
    (fun k b h => by simp [emptyConfirm, getEntry] at h) hchain
  have hlast : (ts ++ [t]).getLastD 0 = t := List.getLastD_concat 0 t ts
  rw [hlast] at hbR hfreshR
  obtain ⟨b, hb1, hb2⟩ := hfreshR (by simp) k c hlive
  exact ⟨b, hb1, hbR k b hb1, hb2⟩

/-- C3, witness for the amended theorem at the trace `[0, 1] ++ [2]`. -/
theorem c3_witness :
    List.Chain (fun a b => a ≤ b) 0 ([0, 1] ++ [2]) ∧
    ∃ b, getEntry "ETH-mispricing"
        ((runTrace "ETH" "mispricing" 3 ([0, 1] ++ [2]) emptyConfirm).2).born = some b ∧
      b ≤ 2 ∧ 2 < b + 30000 :=
  ⟨by norm_num [List.chain_cons],
    c3_counter_lifetime "ETH" "mispricing" 3 [0, 1] 2 (by norm_num [List.chain_cons])
      "ETH-mispricing" 3 (by decide)⟩

/-! ## Claims C4, C5, C7, C8: the single-source rules -/

theorem key_eth_ethereum : ("ETH" ++ "-" ++ "ethereum" : String) = "ETH-ethereum" := by
  decide

/-- C7.  The stale-oracle rule fires iff
`staleDuration = now - observedAt - E` strictly exceeds `2 E` (with
`E = expectedUpdateInterval` in ms), with severity Critical (2) iff
`staleDuration` strictly exceeds `5 E` and Warning (1) otherwise; for
`E = 60 s` it does not fire at `now = t + 180 s` and fires with severity
Warning at `now = t + 181 s`. -/
theorem c7_stale_rule :
    (∀ (now : ℤ) (p : OraclePrice) (config : AssetConfig),
      ((detectStaleOracle now p config).detected = true ↔
        config.expectedUpdateInterval * 1000 * 2 <
          now - p.timestamp - config.expectedUpdateInterval * 1000) ∧
      (detectStaleOracle now p config).severity =
        (if config.expectedUpdateInterval * 1000 * 2 <
            now - p.timestamp - config.expectedUpdateInterval * 1000 then
          (if config.expectedUpdateInterval * 1000 * 5 <
              now - p.timestamp - config.expectedUpdateInterval * 1000 then 2 else 1)
         else 0)) ∧
    (detectStaleOracle 180000 ⟨"ethereum", 100, 0⟩ ethConfig).detected = false ∧
    (detectStaleOracle 181000 ⟨"ethereum", 100, 0⟩ ethConfig).detected = true ∧
    (detectStaleOracle 181000 ⟨"ethereum", 100, 0⟩ ethConfig).severity = 1 := by
  refine ⟨?_, by decide, by decide, by decide⟩
  intro now p config
  simp only [detectStaleOracle, noDetection]
  constructor
  · split_ifs with h1 h2
    · simpa using h1
    · simpa using h1
    · simp only [Bool.false_eq_true, false_iff]
      exact h1
  · split_ifs <;> rfl

/-- C8.  The flash-loan rule fires iff the trailing 15 s window (including
the just-recorded current observation) holds at least 2 observations and
`(max - min) / min * 10⁴` strictly exceeds 2000; when it fires the severity
is Emergency (3).  Stated over windows with positive minimum — the domain
on which exact rational arithmetic models the source's floating-point
division. -/
theorem c8_flash_rule (cur : OraclePrice) (asset : String) (s : EngineState)
    (hpos : 0 < listMin ((flashWindow cur asset s).map (fun p => p.price))) :
    ((detectFlashLoan cur asset s).1.detected = true ↔
      2 ≤ (flashWindow cur asset s).length ∧
        2000 < (listMax ((flashWindow cur asset s).map (fun p => p.price)) -
            listMin ((flashWindow cur asset s).map (fun p => p.price))) /
          listMin ((flashWindow cur asset s).map (fun p => p.price)) * 10000) ∧
    ((detectFlashLoan cur asset s).1.detected = true →
      (detectFlashLoan cur asset s).1.severity = 3 ∧
      (detectFlashLoan cur asset s).1.type = some DetectionType.flash_loan) := by
  simp only [detectFlashLoan, flashWindow, noDetection]
  constructor
  · split_ifs with h1 h2
    · simp only [Bool.false_eq_true, false_iff]
      intro hcon
      omega
    · simp only [true_iff]
      exact ⟨by omega, h2⟩
    · simp only [Bool.false_eq_true, false_iff]
      intro hcon
      exact h2 hcon.2
  · split_ifs <;> simp

/-- C8, witness: two observations 10 s apart at 100 and 125 (2500 bps)
fire; at 100 and 115 (1500 bps) the rule does not fire. -/
theorem c8_witness :
    0 < listMin ((flashWindow ⟨"ethereum", 125, 10000⟩ "ETH"
        ⟨[("ETH-ethereum", [⟨"ethereum", 100, 0⟩])]⟩).map (fun p => p.price)) ∧
    (detectFlashLoan ⟨"ethereum", 125, 10000⟩ "ETH"
        ⟨[("ETH-ethereum", [⟨"ethereum", 100, 0⟩])]⟩).1.detected = true ∧
    (detectFlashLoan ⟨"ethereum", 115, 10000⟩ "ETH"
        ⟨[("ETH-ethereum", [⟨"ethereum", 100, 0⟩])]⟩).1.detected = false := by
  have hpos : 0 < listMin ((flashWindow ⟨"ethereum", 125, 10000⟩ "ETH"
      ⟨[("ETH-ethereum", [⟨"ethereum", 100, 0⟩])]⟩).map (fun p => p.price)) := by
    norm_num [flashWindow, pushCapped, getEntry, listMin, min_def, key_eth_ethereum,
      HISTORY_SIZE, FLASH_LOAN_WINDOW_MS]
  refine ⟨hpos, ?_, ?_⟩
  · refine ((c8_flash_rule ⟨"ethereum", 125, 10000⟩ "ETH"
      ⟨[("ETH-ethereum", [⟨"ethereum", 100, 0⟩])]⟩ hpos).1).mpr ?_
    norm_num [flashWindow, pushCapped, getEntry, listMin, listMax, min_def, max_def,
      key_eth_ethereum, HISTORY_SIZE, FLASH_LOAN_WINDOW_MS]
  · norm_num [detectFlashLoan, pushCapped, getEntry, setEntry, listMin, listMax, min_def,
      max_def, noDetection, key_eth_ethereum, HISTORY_SIZE, FLASH_LOAN_WINDOW_MS]

/-- C4.  No zero/negative-price rejection exists anywhere in the engine: a
prior observation with price 0 is stored in the history and enters the
flash-loan window computation of the next evaluation of the same
`(asset, chain)` key, where the window minimum — the divisor of
`(max - min) / min` — is 0.  (The claim says such observations are rejected
before reaching any rule.) -/
theorem c4_zero_price_reaches_rules :
    (⟨"ethereum", 0, 0⟩ : OraclePrice) ∈
      flashWindow ⟨"ethereum", 100, 1000⟩ "ETH"
        (detectFlashLoan ⟨"ethereum", 0, 0⟩ "ETH" emptyEngine).2 ∧
    listMin ((flashWindow ⟨"ethereum", 100, 1000⟩ "ETH"
        (detectFlashLoan ⟨"ethereum", 0, 0⟩ "ETH" emptyEngine).2).map
      (fun p => p.price)) = 0 := by
  norm_num [detectFlashLoan, flashWindow, pushCapped, getEntry, setEntry, emptyEngine,
    listMin, listMax, min_def, noDetection, key_eth_ethereum, HISTORY_SIZE,
    FLASH_LOAN_WINDOW_MS]

/-- C5, counterexample.  Evaluating the flash-loan rule is not
state-preserving: on a fresh engine it records the current observation into
the stored price history. -/
theorem c5_counterexample :
    ((detectFlashLoan ⟨"ethereum", 100, 0⟩ "ETH" emptyEngine).2).priceHistory ≠
      emptyEngine.priceHistory := by
  norm_num [detectFlashLoan, pushCapped, getEntry, setEntry, emptyEngine, noDetection,
    listMin, listMax, min_def, max_def, HISTORY_SIZE, FLASH_LOAN_WINDOW_MS]

/-- C5, amended.  The stale and statistical rules are pure — their
embeddings are functions of their inputs alone and touch no engine state —
while `detectFlashLoan` deterministically updates exactly its own
`(asset, chain)` history key, appending the current observation with FIFO
eviction beyond capacity 100, and leaves every other key unchanged. -/
theorem c5_flash_frame (cur : OraclePrice) (asset : String) (s : EngineState) (k : String) :
    getEntry (asset ++ "-" ++ cur.chain) ((detectFlashLoan cur asset s).2).priceHistory =
      some (pushCapped ((getEntry (asset ++ "-" ++ cur.chain) s.priceHistory).getD []) cur) ∧
    (k ≠ asset ++ "-" ++ cur.chain →
      getEntry k ((detectFlashLoan cur asset s).2).priceHistory =
        getEntry k s.priceHistory) := by
  have h2 : ((detectFlashLoan cur asset s).2) =
      ⟨setEntry (asset ++ "-" ++ cur.chain)
        (pushCapped ((getEntry (asset ++ "-" ++ cur.chain) s.priceHistory).getD []) cur)
        s.priceHistory⟩ := by
    simp only [detectFlashLoan]
    split_ifs <;> rfl
  rw [h2]
  constructor
  · rw [getEntry_setEntry]
    simp
  · intro hk
    exact (getEntry_setEntry k (asset ++ "-" ++ cur.chain) _ s.priceHistory).trans
      (if_neg (Ne.symm hk))

/-- C5, witness: on a fresh engine, a key other than the one being written
is untouched. -/
theorem c5_witness :
    ("BTC-ethereum" : String) ≠ "ETH" ++ "-" ++ (⟨"ethereum", 100, 0⟩ : OraclePrice).chain ∧
    getEntry "BTC-ethereum"
        ((detectFlashLoan ⟨"ethereum", 100, 0⟩ "ETH" emptyEngine).2).priceHistory =
      getEntry "BTC-ethereum" emptyEngine.priceHistory :=
  ⟨by decide,
    (c5_flash_frame ⟨"ethereum", 100, 0⟩ "ETH" emptyEngine "BTC-ethereum").2 (by decide)⟩

/-! ## Claim C6: the median convention -/

/-- C6, counterexample.  For the even-length sample `[1, 2, 3, 10]` the
engine's median is the upper-middle 3, not the claimed lower-middle 2; its
MAD is likewise the upper-middle 2 of the sorted deviations `[0, 1, 2, 7]`,
not the lower-middle 1. -/
theorem c6_counterexample :
    medianOf [1, 2, 3, 10] = 3 ∧ lowerMiddle [1, 2, 3, 10] = 2 ∧
    madOf [1, 2, 3, 10] = 2 ∧
    lowerMiddle (([1, 2, 3, 10] : List ℚ).map
      (fun v => mabs (v - medianOf [1, 2, 3, 10]))) = 1 := by
  norm_num [medianOf, madOf, lowerMiddle, sortAsc, mabs, List.insertionSort,
    List.orderedInsert]

/-- C6, amended.  For every even sample of at least 2 values the engine's
median is the element at 0-based index `n/2` of the ascending-sorted
values — the upper-middle, not the lower-middle — and the same convention
is applied to the MAD's inner median of the absolute deviations. -/
theorem c6_median_convention (values : List ℚ) (h2 : 2 ≤ values.length)
    (he : values.length % 2 = 0) :
    medianOf values = upperMiddle values ∧
    madOf values = upperMiddle (values.map (fun v => mabs (v - medianOf values))) := by
  constructor
  · simp [medianOf, upperMiddle, sortAsc, List.length_insertionSort]
  · simp [madOf, upperMiddle, sortAsc, List.length_insertionSort, List.length_map]

/-- C6, witness for the amended theorem at the even sample `[1, 2, 3, 10]`. -/
theorem c6_witness :
    2 ≤ ([1, 2, 3, 10] : List ℚ).length ∧
    medianOf [1, 2, 3, 10] = upperMiddle [1, 2, 3, 10] :=
  ⟨by norm_num, (c6_median_convention [1, 2, 3, 10] (by norm_num) (by norm_num)).1⟩

/-! ## Claims C9 and C10: the statistical analysis -/

theorem popVariance_nonneg (values : List ℚ) : 0 ≤ popVariance values := by
  unfold popVariance
  apply div_nonneg
  · apply List.sum_nonneg
    intro x hx
    obtain ⟨v, _, rfl⟩ := List.mem_map.mp hx
    positivity
  · exact Nat.cast_nonneg _

/-- The real-number comparison `bound < sqrt(variance)/mean * 10⁴` of the
source (line 388 and 391-392) is, for positive `mean` and non-negative
`bound`, equivalent to the squared rational comparison of the embedding. -/
theorem rat_sqrt_bps_iff (variance mean bound : ℚ) (hm : 0 < mean) (hb : 0 ≤ bound) :
    ((bound : ℝ) < Real.sqrt (variance : ℝ) / (mean : ℝ) * 10000) ↔
      bound ^ 2 * mean ^ 2 < 10 ^ 8 * variance := by
  have hmr : (0 : ℝ) < (mean : ℝ) := by exact_mod_cast hm
  have hbr : (0 : ℝ) ≤ (bound : ℝ) := by exact_mod_cast hb
  have hx : (0 : ℝ) ≤ (bound : ℝ) * (mean : ℝ) / 10000 :=
    div_nonneg (mul_nonneg hbr (le_of_lt hmr)) (by norm_num)
  rw [div_mul_eq_mul_div, lt_div_iff hmr,
    ← div_lt_iff (show (0 : ℝ) < 10000 by norm_num), Real.lt_sqrt hx, div_pow, mul_pow,
    div_lt_iff (show (0 : ℝ) < (10000 : ℝ) ^ 2 by norm_num),
    show ((10000 : ℝ)) ^ 2 = 10 ^ 8 by norm_num, mul_comm (variance : ℝ) ((10 : ℝ) ^ 8)]
  exact_mod_cast Iff.rfl

theorem stdDevBps_exceeds_iff_sqrt (variance mean bound : ℚ) (hm : 0 < mean)
    (hb : 0 ≤ bound) :
    stdDevBpsExceeds variance mean bound = true ↔
      (bound : ℝ) < Real.sqrt (variance : ℝ) / (mean : ℝ) * 10000 := by
  rw [rat_sqrt_bps_iff variance mean bound hm hb]
  simp [stdDevBpsExceeds, hm]

theorem mispricingCheck_type (median mad : ℚ) (config : AssetConfig) (p : OraclePrice)
    (r : DetectionResult) (h : mispricingCheck median mad config p = some r) :
    r.type = some DetectionType.mispricing := by
  simp only [mispricingCheck] at h
  split_ifs at h
  all_goals first
    | exact Option.noConfusion h
    | rw [← Option.some.inj h]

theorem mispricing_filter_divergence (median mad : ℚ) (config : AssetConfig)
    (prices : List OraclePrice) :
    (prices.filterMap (mispricingCheck median mad config)).filter
      (fun r => r.type = some DetectionType.divergence) = [] := by
  rw [List.filter_eq_nil_iff]
  intro r hr
  obtain ⟨p, _, hp⟩ := List.mem_filterMap.mp hr
  simp [mispricingCheck_type median mad config p r hp]

theorem performStatisticalAnalysis_def (prices : List OraclePrice) (config : AssetConfig) :
    performStatisticalAnalysis prices config =
      (if stdDevBpsExceeds (popVariance (prices.map (fun p => p.price)))
          (meanOf (prices.map (fun p => p.price))) 1000 then
        [{ detected := true, type := some DetectionType.divergence,
           severity :=
             if stdDevBpsExceeds (popVariance (prices.map (fun p => p.price)))
                 (meanOf (prices.map (fun p => p.price))) 2000 then 3
             else if stdDevBpsExceeds (popVariance (prices.map (fun p => p.price)))
                 (meanOf (prices.map (fun p => p.price))) 1500 then 2
             else 1,
           details := Details.diverg (popVariance (prices.map (fun p => p.price)))
             (meanOf (prices.map (fun p => p.price))) prices.length
             (listMin (prices.map (fun p => p.price)))
             (listMax (prices.map (fun p => p.price))) }]
      else []) ++
      prices.filterMap (mispricingCheck (medianOf (prices.map (fun p => p.price)))
        (madOf (prices.map (fun p => p.price))) config) :=
  rfl

theorem detectStaleOracle_not_divergence (now : ℤ) (p : OraclePrice)
    (config : AssetConfig) :
    (detectStaleOracle now p config).type ≠ some DetectionType.divergence := by
  simp only [detectStaleOracle, noDetection]
  split_ifs <;> simp

theorem detectFlashLoan_not_divergence (cur : OraclePrice) (asset : String)
    (s : EngineState) :
    (detectFlashLoan cur asset s).1.type ≠ some DetectionType.divergence := by
  simp only [detectFlashLoan, noDetection]
  split_ifs <;> simp

theorem flashFold_not_divergence (asset : String) (prices : List OraclePrice) :
    ∀ (acc : List DetectionResult × EngineState),
      (∀ r ∈ acc.1, r.type ≠ some DetectionType.divergence) →
      ∀ r ∈ (prices.foldl (fun acc p =>
          let rs := detectFlashLoan p asset acc.2
          (if rs.1.detected then acc.1 ++ [rs.1] else acc.1, rs.2)) acc).1,
        r.type ≠ some DetectionType.divergence := by
  induction prices with
  | nil =>
    intro acc hacc r hr
    exact hacc r hr
  | cons p ps ih =>
    intro acc hacc r hr
    rw [List.foldl_cons] at hr
    refine ih _ ?_ r hr
    intro r2 hr2
    simp only at hr2
    split_ifs at hr2 with hd
    · rcases List.mem_append.mp hr2 with h | h
      · exact hacc r2 h
      · have heq : r2 = (detectFlashLoan p asset acc.2).1 := by simpa using h
        rw [heq]
        exact detectFlashLoan_not_divergence p asset acc.2
    · exact hacc r2 hr2

/-- C9, counterexample.  For the three-source sample {100, 100, 122} the
sample standard deviation (dividing by `n - 1`) puts `stdDevBps` above
1000 — the claim says divergence fires — yet the code, which divides by
`n`, does not fire. -/
theorem c9_counterexample :
    ((performStatisticalAnalysis
        [⟨"ethereum", 100, 0⟩, ⟨"arbitrum", 100, 0⟩, ⟨"optimism", 122, 0⟩]
        ethConfig).filter (fun r => r.type = some DetectionType.divergence) = []) ∧
    (1000 : ℝ) < Real.sqrt ((sampleVariance [100, 100, 122] : ℚ) : ℝ) /
        ((meanOf ([100, 100, 122] : List ℚ) : ℚ) : ℝ) * 10000 := by
  constructor
  · rw [performStatisticalAnalysis_def, List.filter_append,
      mispricing_filter_divergence]
    have hgate : stdDevBpsExceeds
        (popVariance (([⟨"ethereum", 100, 0⟩, ⟨"arbitrum", 100, 0⟩,
          ⟨"optimism", 122, 0⟩] : List OraclePrice).map (fun p => p.price)))
        (meanOf (([⟨"ethereum", 100, 0⟩, ⟨"arbitrum", 100, 0⟩,
          ⟨"optimism", 122, 0⟩] : List OraclePrice).map (fun p => p.price))) 1000 = false := by
      norm_num [stdDevBpsExceeds, popVariance, meanOf]
    rw [hgate]
    simp
  · have hsv : sampleVariance [100, 100, 122] = 484 / 3 := by
      norm_num [sampleVariance, meanOf]
    have hmv : meanOf ([100, 100, 122] : List ℚ) = 322 / 3 := by
      norm_num [meanOf]
    rw [hsv, hmv]
    have h := (rat_sqrt_bps_iff (484 / 3) (322 / 3) 1000 (by norm_num) (by norm_num)).mpr
      (by norm_num)
    exact_mod_cast h

/-- C9, amended.  With at least 3 sources (and positive mean), divergence
fires iff `stdDevBps = sqrt(variance)/mean × 10⁴` strictly exceeds 1000,
where `variance` is the POPULATION variance (dividing by `n`), not the
sample variance the claim names; severity is Emergency above 2000 bps,
Critical above 1500, else Warning.  With fewer than 3 sources the
statistical analysis is skipped and no divergence result is ever
produced. -/
theorem c9_divergence_rule (prices : List OraclePrice) (config : AssetConfig)
    (now : ℤ) (asset : String) (s : EngineState)
    (hm : 0 < meanOf (prices.map (fun p => p.price))) :
    (((performStatisticalAnalysis prices config).filter
        (fun r => r.type = some DetectionType.divergence)) ≠ [] ↔
      (1000 : ℝ) < Real.sqrt ((popVariance (prices.map (fun p => p.price)) : ℚ) : ℝ) /
          ((meanOf (prices.map (fun p => p.price)) : ℚ) : ℝ) * 10000) ∧
    (∀ r ∈ performStatisticalAnalysis prices config,
      r.type = some DetectionType.divergence →
      r.severity =
        (if (2000 : ℝ) < Real.sqrt ((popVariance (prices.map (fun p => p.price)) : ℚ) : ℝ) /
            ((meanOf (prices.map (fun p => p.price)) : ℚ) : ℝ) * 10000 then 3
         else if (1500 : ℝ) <
             Real.sqrt ((popVariance (prices.map (fun p => p.price)) : ℚ) : ℝ) /
               ((meanOf (prices.map (fun p => p.price)) : ℚ) : ℝ) * 10000 then 2
         else 1)) ∧
    (prices.length < 3 →
      (analyzePrices now asset prices config s).1.filter
        (fun r => r.type = some DetectionType.divergence) = []) := by
  have h1000 := stdDevBps_exceeds_iff_sqrt (popVariance (prices.map (fun p => p.price)))
    (meanOf (prices.map (fun p => p.price))) 1000 hm (by norm_num)
  have h1500 := stdDevBps_exceeds_iff_sqrt (popVariance (prices.map (fun p => p.price)))
    (meanOf (prices.map (fun p => p.price))) 1500 hm (by norm_num)
  have h2000 := stdDevBps_exceeds_iff_sqrt (popVariance (prices.map (fun p => p.price)))
    (meanOf (prices.map (fun p => p.price))) 2000 hm (by norm_num)
  push_cast at h1000 h1500 h2000
  refine ⟨?_, ?_, ?_⟩
  · rw [performStatisticalAnalysis_def, List.filter_append, mispricing_filter_divergence,
      List.append_nil]
    by_cases hg : stdDevBpsExceeds (popVariance (prices.map (fun p => p.price)))
        (meanOf (prices.map (fun p => p.price))) 1000 = true
    · rw [if_pos hg]
      simp only [List.filter_cons, List.filter_nil]
      rw [← h1000]
      simp [hg]
    · rw [if_neg hg]
      rw [← h1000]
      simp [hg]
  · intro r hr htype
    rw [performStatisticalAnalysis_def] at hr
    rcases List.mem_append.mp hr with hdiv | hmis
    · by_cases hg : stdDevBpsExceeds (popVariance (prices.map (fun p => p.price)))
          (meanOf (prices.map (fun p => p.price))) 1000 = true
      · rw [if_pos hg] at hdiv
        have heq := List.mem_singleton.mp hdiv
        rw [heq]
        simp only [h1500, h2000]
      · rw [if_neg hg] at hdiv
        simp at hdiv
    · obtain ⟨p, _, hp⟩ := List.mem_filterMap.mp hmis
      exact absurd htype (by simp [mispricingCheck_type _ _ _ _ _ hp])
  · intro hlen
    have hnot : ¬ (3 ≤ prices.length) := by omega
    simp only [analyzePrices, hnot, if_false]
    rw [List.filter_append, List.filter_append]
    have hstale : (prices.filterMap (fun p =>
        let r := detectStaleOracle now p config
        if r.detected then some r else none)).filter
          (fun r => r.type = some DetectionType.divergence) = [] := by
      rw [List.filter_eq_nil_iff]
      intro r hr
      obtain ⟨p, _, hp⟩ := List.mem_filterMap.mp hr
      simp only at hp
      have heq : detectStaleOracle now p config = r := by
        by_cases hd : (detectStaleOracle now p config).detected = true
        · rw [if_pos hd] at hp
          exact Option.some.inj hp
        · rw [if_neg hd] at hp
          exact Option.noConfusion hp
      rw [← heq]
      simp [detectStaleOracle_not_divergence now p config]
    have hflash : ((prices.foldl (fun acc p =>
        let rs := detectFlashLoan p asset acc.2
        (if rs.1.detected then acc.1 ++ [rs.1] else acc.1, rs.2))
          (([] : List DetectionResult), s)).1).filter
          (fun r => r.type = some DetectionType.divergence) = [] := by
      rw [List.filter_eq_nil_iff]
      intro r hr
      have := flashFold_not_divergence asset prices (([] : List DetectionResult), s)
        (by intro r2 hr2; exact absurd hr2 (List.not_mem_nil r2)) r hr
      simp [this]
    rw [hstale, hflash]
    simp

/-- C9, witness for the amended theorem: the sample {100, 100, 130} has
population stdDevBps ≈ 1285 > 1000; the divergence filter is non-empty and
the theorem transports this to the real-number `sqrt` bound. -/
theorem c9_witness :
    (1000 : ℝ) < Real.sqrt ((popVariance ([100, 100, 130] : List ℚ) : ℚ) : ℝ) /
        ((meanOf ([100, 100, 130] : List ℚ) : ℚ) : ℝ) * 10000 := by
  have h := (c9_divergence_rule
    [⟨"ethereum", 100, 0⟩, ⟨"arbitrum", 100, 0⟩, ⟨"optimism", 130, 0⟩]
    ethConfig 0 "ETH" emptyEngine (by norm_num [meanOf])).1
  refine h.mp ?_
  rw [performStatisticalAnalysis_def, List.filter_append, mispricing_filter_divergence,
    List.append_nil]
  have hgate : stdDevBpsExceeds
      (popVariance (([⟨"ethereum", 100, 0⟩, ⟨"arbitrum", 100, 0⟩,
        ⟨"optimism", 130, 0⟩] : List OraclePrice).map (fun p => p.price)))
      (meanOf (([⟨"ethereum", 100, 0⟩, ⟨"arbitrum", 100, 0⟩,
        ⟨"optimism", 130, 0⟩] : List OraclePrice).map (fun p => p.price))) 1000 = true := by
    norm_num [stdDevBpsExceeds, popVariance, meanOf]
  rw [hgate]
  simp

/-- C10.  The mispricing rule fires for a source price iff
`|deviationBps|/100` exceeds the warning threshold OR the MAD-based z-score
(0 when MAD = 0) exceeds 2.5; severity is Emergency above the emergency
threshold, Critical above the critical threshold, else Warning.  On the
spec's five-source sample {100, 101, 99, 102, 150} with the default ETH
thresholds the median is 101 and exactly one price — 150, at Emergency —
is flagged. -/
theorem c10_mispricing_rule :
    (∀ (median mad : ℚ) (config : AssetConfig) (p : OraclePrice),
      ((mispricingCheck median mad config p).isSome = true ↔
        (config.thresholds.warning < mabs ((p.price - median) / median * 10000) / 100 ∨
          (5 : ℚ) / 2 < (if 0 < mad then mabs (p.price - median) / mad else 0))) ∧
      (∀ r, mispricingCheck median mad config p = some r →
        r.severity =
          (if config.thresholds.emergency <
              mabs ((p.price - median) / median * 10000) / 100 then 3
           else if config.thresholds.critical <
              mabs ((p.price - median) / median * 10000) / 100 then 2
           else 1))) ∧
    ((performStatisticalAnalysis fiveSourceSample ethConfig).filter
        (fun r => r.type = some DetectionType.mispricing) =
      [⟨true, some DetectionType.mispricing, 3,
        Details.misp 150 101 (490000 / 101) "solana" 49⟩]) ∧
    medianOf (fiveSourceSample.map (fun p => p.price)) = 101 := by
  refine ⟨?_, ?_, ?_⟩
  · intro median mad config p
    constructor
    · simp only [mispricingCheck]
      by_cases h1 : mabs ((p.price - median) / median * 10000) / 100 >
          config.thresholds.warning ∨
          (if 0 < mad then mabs (p.price - median) / mad else 0) > 5 / 2
      · rw [if_pos h1]
        simpa using h1
      · rw [if_neg h1]
        simpa using h1
    · intro r hr
      simp only [mispricingCheck] at hr
      split_ifs at hr <;>
        first
          | exact Option.noConfusion hr
          | (rw [← Option.some.inj hr]
             split_ifs <;> first | rfl | linarith)
  · norm_num [performStatisticalAnalysis, mispricingCheck, medianOf, madOf, meanOf,
      popVariance, stdDevBpsExceeds, sortAsc, mabs, ethConfig, fiveSourceSample,
      List.insertionSort, List.orderedInsert, List.filterMap, List.filter]
    rfl
  · norm_num [medianOf, sortAsc, fiveSourceSample, List.insertionSort, List.orderedInsert]

/-- C10, witness: at median 101, MAD 1 and the default ETH thresholds, the
price 150 is flagged (z-score 49 > 2.5) at severity Emergency. -/
theorem c10_witness :
    (mispricingCheck 101 1 ethConfig ⟨"solana", 150, 0⟩).isSome = true ∧
    (∀ r, mispricingCheck 101 1 ethConfig ⟨"solana", 150, 0⟩ = some r → r.severity = 3) := by
  constructor
  · exact ((c10_mispricing_rule.1 101 1 ethConfig ⟨"solana", 150, 0⟩).1).mpr
      (Or.inr (by norm_num [mabs]))
  · intro r hr
    have h := (c10_mispricing_rule.1 101 1 ethConfig ⟨"solana", 150, 0⟩).2 r hr
    rw [h]
    norm_num [mabs, ethConfig]

end Drosera
